import Mathlib

/- A verification model of the redAsset asset-discovery tool (main.go).

   The program streams DNS records and certificate-transparency results
   through a match predicate `isValidResult`, built from a suffix matcher
   `isAllowed`, the Go standard library's `net.ParseIP` / `(*IPNet).Contains`,
   and shared progress counters.  The model below translates those functions
   into executable Lean definitions: strings are Lean `String`s (byte/char
   lists for parsing), machine bytes are `Nat` with explicit byte arithmetic,
   a nil Go `net.IP` slice is the empty list, and fallible parsing returns
   the empty list or `Option`. -/

/- ### Data model -/

/-- A single DNS record: hostname plus record target (IP address or alias);
    `Value` is the zero value `""` for certificate-transparency results. -/
structure DNSEntry where
  Name : String
  Value : String
  deriving DecidableEq

/-- Go `net.IPNet`: network number plus mask, each a byte list
    (4 bytes for IPv4, 16 for IPv6; `[]` plays the role of a nil slice). -/
structure IPNet where
  ip : List Nat
  mask : List Nat
  deriving DecidableEq

/- ### Go strings.HasSuffix and isAllowed (main.go lines 172-180) -/

/-- Go `strings.HasSuffix(s, suffix)`: length test plus equality of the
    final `len(suffix)` characters. -/
def hasSuffix (s suffix : String) : Bool :=
  decide (suffix.data.length ≤ s.data.length) &&
  decide (s.data.drop (s.data.length - suffix.data.length) = suffix.data)

/-- `isAllowed` from main.go: scan the pattern list, return true at the
    first pattern that is a suffix of `domain`. -/
def isAllowed : List String → String → Bool
  | [], _ => false
  | s :: rest, domain => if hasSuffix domain s then true else isAllowed rest domain

/- ### Go net package model: ParseIP, To4, CIDRMask, Mask, Contains -/

/-- Go `net.v4InV6Prefix`: the 12-byte prefix of an IPv4-in-IPv6 address. -/
def v4mapped : List Nat := [0, 0, 0, 0, 0, 0, 0, 0, 0, 0, 255, 255]

/-- Go `net` package constant `big = 0xFFFFFF`, the overflow bound of the
    decimal/hex field scanners. -/
def bigBound : Nat := 16777215

/-- Loop of Go `net.dtoi`: accumulate decimal digits, returning
    (value, chars consumed, ok). -/
def dtoiLoop : List Char → Nat → Nat → Nat × Nat × Bool
  | [], n, i => if i = 0 then (0, 0, false) else (n, i, true)
  | c :: rest, n, i =>
    if 48 ≤ c.toNat ∧ c.toNat ≤ 57 then
      let m := n * 10 + (c.toNat - 48)
      if bigBound ≤ m then (bigBound, i, false)
      else dtoiLoop rest m (i + 1)
    else if i = 0 then (0, 0, false) else (n, i, true)

/-- Go `net.dtoi`. -/
def dtoi (s : List Char) : Nat × Nat × Bool := dtoiLoop s 0 0

/-- Loop of Go `net.xtoi`: accumulate hexadecimal digits. -/
def xtoiLoop : List Char → Nat → Nat → Nat × Nat × Bool
  | [], n, i => if i = 0 then (0, 0, false) else (n, i, true)
  | c :: rest, n, i =>
    let d : Option Nat :=
      if 48 ≤ c.toNat ∧ c.toNat ≤ 57 then some (c.toNat - 48)
      else if 97 ≤ c.toNat ∧ c.toNat ≤ 102 then some (c.toNat - 97 + 10)
      else if 65 ≤ c.toNat ∧ c.toNat ≤ 70 then some (c.toNat - 65 + 10)
      else none
    match d with
    | none => if i = 0 then (0, 0, false) else (n, i, true)
    | some dv =>
      let m := n * 16 + dv
      if bigBound ≤ m then (0, i, false)
      else xtoiLoop rest m (i + 1)

/-- Go `net.xtoi`. -/
def xtoi (s : List Char) : Nat × Nat × Bool := xtoiLoop s 0 0

/-- Field loop of Go `net.parseIPv4`: `k` fields remain, `acc` holds the
    bytes parsed so far (`acc = []` marks the first field, before which no
    dot is consumed). -/
def parseIPv4Loop : Nat → List Char → List Nat → List Nat
  | 0, s, acc => if s = [] then v4mapped ++ acc else []
  | k + 1, s, acc =>
    if s = [] then []
    else
      let s1 : Option (List Char) :=
        if acc = [] then some s
        else match s with
          | '.' :: rest => some rest
          | _ => none
      match s1 with
      | none => []
      | some s2 =>
        let r := dtoi s2
        if r.2.2 = false ∨ 255 < r.1 then []
        else parseIPv4Loop k (s2.drop r.2.1) (acc ++ [r.1])

/-- Go `net.parseIPv4`: dotted-decimal parse returning the 16-byte
    IPv4-in-IPv6 form (Go's `IPv4(...)`), or `[]` (nil) on failure. -/
def parseIPv4 (s : List Char) : List Nat := parseIPv4Loop 4 s []

/-- Post-loop section of Go `net.parseIPv6`: reject leftover input, expand
    an ellipsis to zero bytes, reject an ellipsis in a full address. -/
def ipv6Finish (s : List Char) (acc : List Nat) (ell : Option Nat) : List Nat :=
  if s ≠ [] then []
  else if acc.length < 16 then
    match ell with
    | none => []
    | some e => acc.take e ++ List.replicate (16 - acc.length) 0 ++ acc.drop e
  else
    match ell with
    | some _ => []
    | none => acc

/-- Main loop of Go `net.parseIPv6`: one iteration per 16-bit group (or the
    trailing embedded IPv4 quad).  `acc.length` is Go's index `i`; the fuel
    argument bounds the at most eight group iterations. -/
def parseIPv6Loop : Nat → List Char → List Nat → Option Nat → List Nat
  | fuel, s, acc, ell =>
    if 16 ≤ acc.length then ipv6Finish s acc ell
    else
      match fuel with
      | 0 => []
      | fuel' + 1 =>
        let r := xtoi s
        if r.2.2 = false ∨ 65535 < r.1 then []
        else if r.2.1 < s.length ∧ s.getD r.2.1 ' ' = '.' then
          if (ell = none ∧ acc.length ≠ 12) ∨ 16 < acc.length + 4 then []
          else
            let ip4 := parseIPv4 s
            if ip4 = [] then []
            else ipv6Finish [] (acc ++ ip4.drop 12) ell
        else
          let acc2 := acc ++ [r.1 / 256, r.1 % 256]
          let s2 := s.drop r.2.1
          if s2 = [] then ipv6Finish [] acc2 ell
          else if s2.getD 0 ' ' ≠ ':' ∨ s2.length = 1 then []
          else
            let s3 := s2.drop 1
            if s3.getD 0 ' ' = ':' then
              if ell ≠ none then []
              else
                let s4 := s3.drop 1
                if s4 = [] then ipv6Finish [] acc2 (some acc2.length)
                else parseIPv6Loop fuel' s4 acc2 (some acc2.length)
            else parseIPv6Loop fuel' s3 acc2 ell

/-- Go `net.parseIPv6` (zone already stripped): handles a leading `::`,
    then runs the group loop. -/
def parseIPv6 (s : List Char) : List Nat :=
  match s with
  | ':' :: ':' :: rest =>
    if rest = [] then List.replicate 16 0
    else parseIPv6Loop 8 rest [] (some 0)
  | _ => parseIPv6Loop 8 s [] none

/-- Go `net.parseIPv6Zone`: split the literal at the first `%` and parse
    the address part (the zone is irrelevant to containment). -/
def parseIPv6Zone (s : List Char) : List Nat :=
  parseIPv6 (s.takeWhile fun c => c ≠ '%')

/-- Scan of Go `net.ParseIP`: the first `.` or `:` decides between the
    IPv4 and IPv6 parser; neither found means nil. -/
def parseIPScan : List Char → List Char → List Nat
  | [], _ => []
  | c :: rest, full =>
    if c = '.' then parseIPv4 full
    else if c = ':' then parseIPv6Zone full
    else parseIPScan rest full

/-- Go `net.ParseIP`: `[]` models the nil `net.IP` returned on failure. -/
def ParseIP (s : String) : List Nat := parseIPScan s.data s.data

/-- Go `net.IP.To4`: a 4-byte address is returned unchanged; a 16-byte
    IPv4-in-IPv6 address is shortened to 4 bytes; anything else is nil. -/
def ipTo4 (ip : List Nat) : List Nat :=
  if ip.length = 4 then ip
  else if ip.length = 16 ∧ ip.take 12 = v4mapped then ip.drop 12
  else []

/-- Go `net.CIDRMask(ones, bits)`. -/
def CIDRMask (ones bits : Nat) : List Nat :=
  if ¬(bits = 32 ∨ bits = 128) then []
  else if bits < ones then []
  else
    (List.range (bits / 8)).map fun i =>
      if 8 * (i + 1) ≤ ones then 255
      else if ones ≤ 8 * i then 0
      else 256 - 2 ^ (8 - (ones - 8 * i))

/-- All bytes equal to 0xff (Go `net.allFF`). -/
def allFF (bs : List Nat) : Bool := bs.all fun b => b = 255

/-- Go `net.IP.Mask`: adjust a 16-byte mask against a 4-byte address (and
    conversely), then apply bytewise AND; nil on length mismatch. -/
def ipMaskOp (ipIn maskIn : List Nat) : List Nat :=
  let mask := if maskIn.length = 16 ∧ ipIn.length = 4 ∧ allFF (maskIn.take 12) = true
    then maskIn.drop 12 else maskIn
  let ip := if mask.length = 4 ∧ ipIn.length = 16 ∧ ipIn.take 12 = v4mapped
    then ipIn.drop 12 else ipIn
  if ip.length ≠ mask.length then []
  else List.zipWith Nat.land ip mask

/-- Go `net.networkNumberAndMask`: normalize an `IPNet` to a matching
    (network number, mask) pair, `([], [])` standing for (nil, nil). -/
def networkNumberAndMask (net : IPNet) : List Nat × List Nat :=
  let t4 := ipTo4 net.ip
  let nn := if t4 = [] then (if net.ip.length = 16 then net.ip else []) else t4
  if nn = [] then ([], [])
  else if net.mask.length = 4 then
    if nn.length ≠ 4 then ([], []) else (nn, net.mask)
  else if net.mask.length = 16 then
    if nn.length = 4 then (nn, net.mask.drop 12) else (nn, net.mask)
  else ([], [])

/-- Go `(*net.IPNet).Contains`: convert the queried address with To4 when
    possible, require equal lengths, then compare masked bytes. -/
def netContains (net : IPNet) (ipIn : List Nat) : Bool :=
  let p := networkNumberAndMask net
  let t4 := ipTo4 ipIn
  let ip := if t4 = [] then ipIn else t4
  if ip.length ≠ p.1.length then false
  else (List.range ip.length).all fun i =>
    Nat.land (p.1.getD i 0) (p.2.getD i 0) = Nat.land (ip.getD i 0) (p.2.getD i 0)

/-- Index of `/` in Go `net.ParseCIDR`: split at the first slash. -/
def splitSlash (s : List Char) : Option (List Char × List Char) :=
  if s.contains '/' then
    some (s.takeWhile (fun c => c ≠ '/'), (s.dropWhile (fun c => c ≠ '/')).drop 1)
  else none

/-- Go `net.ParseCIDR`, restricted to the `*IPNet` result the program keeps:
    parse the address (IPv4 first, IPv6 otherwise), the decimal mask length,
    and return the masked network with its mask. -/
def ParseCIDR (s : String) : Option IPNet :=
  match splitSlash s.data with
  | none => none
  | some (addr, maskStr) =>
    let ip4 := parseIPv4 addr
    let ip := if ip4 = [] then parseIPv6 addr else ip4
    let iplen : Nat := if ip4 = [] then 16 else 4
    let r := dtoi maskStr
    if ip = [] ∨ r.2.2 = false ∨ r.2.1 ≠ maskStr.length ∨ 8 * iplen < r.1 then none
    else
      let m := CIDRMask r.1 (8 * iplen)
      some ⟨ipMaskOp ip m, m⟩

/- ### The match predicate (main.go lines 138-170) -/

/-- The prefix-containment loop of `isValidResult`: return true at the
    first network containing the address. -/
def anyContains : List IPNet → List Nat → Bool
  | [], _ => false
  | net :: rest, ip => if netContains net ip then true else anyContains rest ip

/-- `isValidResult` from main.go: the IP block first (a containment hit
    returns true outright; with no hit and an empty allow list, false),
    then the allow-list suffix check, then the deny-list suffix check. -/
def isValidResult (dnsentry : DNSEntry) (allowed blacklist : List String)
    (ips : List IPNet) : Bool :=
  let entryIp := ParseIP dnsentry.Value
  if 0 < ips.length ∧ anyContains ips entryIp = true then true
  else if 0 < ips.length ∧ allowed.length ≤ 0 then false
  else if 0 < allowed.length ∧ isAllowed allowed dnsentry.Name = false then false
  else if 0 < blacklist.length ∧ isAllowed blacklist dnsentry.Name = true then false
  else true

/- ### The bulk scan driver (main.go lines 115-136) -/

/-- The record loop of `parseFDNS`: `c` and `v` are the global `count` and
    `valid` counters; returns the emitted names with the final counters.
    The entry list stands for the record sequence yielded by
    `parseDnsHosts` (the reader itself lives outside main.go). -/
def scanFDNS (allowed blacklist : List String) (ips : List IPNet) :
    List DNSEntry → Nat → Nat → List String × Nat × Nat
  | [], c, v => ([], c, v)
  | e :: rest, c, v =>
    if isValidResult e allowed blacklist ips then
      let r := scanFDNS allowed blacklist ips rest (c + 1) (v + 1)
      (e.Name :: r.1, r.2.1, r.2.2)
    else scanFDNS allowed blacklist ips rest (c + 1) v

/-- `parseFDNS` from main.go: fatal configuration error when both the allow
    list and the prefix set are empty, otherwise the record loop. -/
def parseFDNS (allowed blacklist : List String) (ips : List IPNet)
    (entries : List DNSEntry) (c v : Nat) : Except String (List String × Nat × Nat) :=
  if allowed.length ≤ 0 ∧ ips.length ≤ 0 then
    Except.error "No valid domains (0) and IPs (0) parsed."
  else Except.ok (scanFDNS allowed blacklist ips entries c v)

/-- The bulk scan as main runs it: the globals start at `count = 1`,
    `valid = 0` (main.go lines 18-19). -/
def runFDNS (allowed blacklist : List String) (ips : List IPNet)
    (entries : List DNSEntry) : Except String (List String × Nat × Nat) :=
  parseFDNS allowed blacklist ips entries 1 0

/- ### The certificate-transparency driver (main.go lines 83-113) -/

/-- `queryCATransparency` from main.go, with `pages domain` standing for
    the unmarshalled `name_value` fields returned by crt.sh for `domain`:
    one query per allow-list domain, each result filtered through
    `isValidResult` with only a `Name` (the `Value` is the zero string) and
    a literal empty prefix slice. -/
def queryCATransparency (allowed blacklist : List String)
    (pages : String → List String) : List String :=
  allowed.flatMap fun domain =>
    (pages domain).filter fun d => isValidResult ⟨d, ""⟩ allowed blacklist []

/- ### Configuration loading (main.go lines 42-60) -/

/-- Modelled from the spec: `parseDomainFile` is not part of main.go; per
    the spec a line parseable as an IP network (CIDR) contributes to the
    prefix list and every other line is a domain-suffix string, in file
    order. -/
def parseDomainFile (lines : List String) : List String × List IPNet :=
  lines.foldr
    (fun line acc =>
      match ParseCIDR line with
      | some net => (acc.1, net :: acc.2)
      | none => (line :: acc.1, acc.2))
    ([], [])

/-- The flag-loading block of `main`: `allowedDomains`, `blacklistDomains`
    and `ips` start nil; a `-domains` file assigns the first and third, a
    `-bdomains` file assigns the second and third — the second assignment
    overwrites `ips` exactly as main.go lines 52-60 do. -/
def mainConfig (domainLines blacklistLines : Option (List String)) :
    List String × List String × List IPNet :=
  let a := match domainLines with
    | some ls => parseDomainFile ls
    | none => ([], [])
  match blacklistLines with
  | some ls =>
    let b := parseDomainFile ls
    (a.1, b.1, b.2)
  | none => (a.1, [], a.2)

/-- Shape invariant of every network produced by `ParseCIDR`: a 4-byte
    network with a 4-byte mask, or a 16-byte network with a 16-byte mask. -/
def IPNetWF (net : IPNet) : Prop :=
  (net.ip.length = 4 ∧ net.mask.length = 4) ∨
  (net.ip.length = 16 ∧ net.mask.length = 16)

instance : DecidablePred IPNetWF := fun net => by
  unfold IPNetWF
  infer_instance

/- ### Concrete networks and inputs used by the examples -/

/-- The network Go yields for `ParseCIDR "10.0.0.0/8"`. -/
def net10 : IPNet := ⟨[10, 0, 0, 0], [255, 0, 0, 0]⟩

/-- The network Go yields for `ParseCIDR "192.168.0.0/16"`. -/
def net192 : IPNet := ⟨[192, 168, 0, 0], [255, 255, 0, 0]⟩

/-- The two-record end-to-end input of the spec's final scenario. -/
def twoRecordInput : List DNSEntry :=
  [⟨"a.example.com", "1.2.3.4"⟩, ⟨"a.other.com", "9.9.9.9"⟩]

/- ### Helper lemmas -/

/-- The suffix scan accepts exactly when some pattern is a suffix. -/
theorem isAllowed_iff_exists (ps : List String) (name : String) :
    isAllowed ps name = true ↔ ∃ p ∈ ps, hasSuffix name p = true := by
  induction ps with
  | nil => simp [isAllowed]
  | cons p rest ih =>
    by_cases h : hasSuffix name p = true
    · simp [isAllowed, h]
    · simp only [Bool.not_eq_true] at h
      simp [isAllowed, h, ih]

/-- The containment scan hits exactly when some network contains the address. -/
theorem anyContains_eq_true_iff (ips : List IPNet) (ip : List Nat) :
    anyContains ips ip = true ↔ ∃ net ∈ ips, netContains net ip = true := by
  induction ips with
  | nil => simp [anyContains]
  | cons net rest ih =>
    by_cases h : netContains net ip = true
    · simp [anyContains, h]
    · simp only [Bool.not_eq_true] at h
      simp [anyContains, h, ih]

/-- The containment scan misses exactly when every network misses. -/
theorem anyContains_eq_false_iff (ips : List IPNet) (ip : List Nat) :
    anyContains ips ip = false ↔ ∀ net ∈ ips, netContains net ip = false := by
  rw [← Bool.not_eq_true, anyContains_eq_true_iff]
  simp

/-- With no containment hit, `isValidResult` reduces to the empty-allow-list
    rejection or the pure domain checks. -/
theorem isValidResult_no_ip_match (e : DNSEntry) (allowed blacklist : List String)
    (ips : List IPNet) (h : anyContains ips (ParseIP e.Value) = false) :
    isValidResult e allowed blacklist ips =
      if 0 < ips.length ∧ allowed.length = 0 then false
      else isValidResult e allowed blacklist [] := by
  simp [isValidResult, h, Nat.le_zero]

/-- The record loop emits the names of the records accepted by the predicate,
    in order, and advances the counters by record count and match count. -/
theorem scanFDNS_eq (allowed blacklist : List String) (ips : List IPNet)
    (entries : List DNSEntry) (c v : Nat) :
    scanFDNS allowed blacklist ips entries c v =
      ((entries.filter fun e => isValidResult e allowed blacklist ips).map DNSEntry.Name,
       c + entries.length,
       v + (entries.filter fun e => isValidResult e allowed blacklist ips).length) := by
  induction entries generalizing c v with
  | nil => simp [scanFDNS]
  | cons e rest ih =>
    simp only [scanFDNS, ih, List.filter_cons, List.length_cons]
    by_cases h : isValidResult e allowed blacklist ips = true
    · simp only [h, if_true, List.map_cons, List.length_cons, Prod.mk.injEq]
      exact ⟨trivial, by omega, by omega⟩
    · simp only [Bool.not_eq_true] at h
      simp only [h, Bool.false_eq_true, if_false, Prod.mk.injEq]
      exact ⟨trivial, by omega, trivial⟩

/-- A well-formed network has a 4- or 16-byte network number. -/
theorem nnam_length (net : IPNet) (h : IPNetWF net) :
    (networkNumberAndMask net).1.length = 4 ∨ (networkNumberAndMask net).1.length = 16 := by
  rcases h with ⟨h4, hm⟩ | ⟨h16, hm⟩
  · have hne : net.ip ≠ [] := by
      intro hh
      rw [hh] at h4
      simp at h4
    have ht4 : ipTo4 net.ip = net.ip := by simp [ipTo4, h4]
    simp [networkNumberAndMask, ht4, hne, hm, h4]
  · by_cases hv : net.ip.take 12 = v4mapped
    · have ht4 : ipTo4 net.ip = net.ip.drop 12 := by simp [ipTo4, h16, hv]
      have hl : (net.ip.drop 12).length = 4 := by simp [h16]
      have hne : net.ip.drop 12 ≠ [] := by
        intro hh
        rw [hh] at hl
        simp at hl
      simp [networkNumberAndMask, ht4, hne, hm, hl]
    · have ht4 : ipTo4 net.ip = [] := by simp [ipTo4, h16, hv]
      have hne : net.ip ≠ [] := by
        intro hh
        rw [hh] at h16
        simp at h16
      simp [networkNumberAndMask, ht4, h16, hne, hm]

/-- A well-formed network never contains the nil address. -/
theorem netContains_nil_of_wf (net : IPNet) (h : IPNetWF net) :
    netContains net [] = false := by
  have hl := nnam_length net h
  have ht : ipTo4 ([] : List Nat) = [] := rfl
  rcases hl with h4 | h16
  · simp [netContains, ht, h4]
  · simp [netContains, ht, h16]

/-- With a non-empty deny list hit on the name, the domain path rejects. -/
theorem isValidResult_deny_hit (e : DNSEntry) (allowed blacklist : List String)
    (hb : blacklist ≠ []) (hd : isAllowed blacklist e.Name = true) :
    isValidResult e allowed blacklist [] = false := by
  have hbl : 0 < blacklist.length := List.length_pos.mpr hb
  simp [isValidResult, hd, hbl]

/-- Over an empty prefix slice and a non-empty allow list, the predicate
    accepts exactly the allow-suffix-matched, non-deny-suffix-matched names. -/
theorem isValidResult_ct (allowed blacklist : List String) (name : String)
    (ha : allowed ≠ []) :
    isValidResult ⟨name, ""⟩ allowed blacklist [] = true ↔
      isAllowed allowed name = true ∧ isAllowed blacklist name = false := by
  have hal : 0 < allowed.length := List.length_pos.mpr ha
  by_cases h1 : isAllowed allowed name = true
  · by_cases h2 : blacklist = []
    · subst h2
      simp [isValidResult, h1, hal, isAllowed]
    · by_cases h3 : isAllowed blacklist name = true
      · simp [isValidResult, h1, h3, hal, List.length_pos.mpr h2]
      · simp only [Bool.not_eq_true] at h3
        simp [isValidResult, h1, h3, hal]
  · simp only [Bool.not_eq_true] at h1
    simp [isValidResult, h1, hal]

/- ### Claim theorems -/

/-- C1 (counterexample): the claim says `isAllowed({"example.com"},
    "notexample.com")` is false, but the code's plain `strings.HasSuffix`
    match accepts it, since "notexample.com" ends with "example.com". -/
theorem c1_suffix_counterexample :
    isAllowed ["example.com"] "notexample.com" = true := by decide

/-- C1 (amended): `isAllowed` is plain string-suffix matching with no label
    boundary — it accepts exactly the names that end, character for
    character, with some pattern; in particular "notexample.com",
    "sub.example.com" and "example.com" are all accepted against the pattern
    "example.com". -/
theorem c1_suffix_matching_amended :
    (∀ (ps : List String) (name : String),
      isAllowed ps name = true ↔ ∃ p ∈ ps, hasSuffix name p = true) ∧
    isAllowed ["example.com"] "notexample.com" = true ∧
    isAllowed ["example.com"] "sub.example.com" = true ∧
    isAllowed ["example.com"] "example.com" = true :=
  ⟨isAllowed_iff_exists, by decide, by decide, by decide⟩

/-- C2 (counterexample): the claim says a deny-suffix-matched entry is
    always excluded, whichever criterion admitted it; but an entry admitted
    by the IP-prefix check (value 10.1.2.3 inside 10.0.0.0/8) returns true
    before the deny list is ever consulted, even though its name
    "internal.example.com" ends with the deny entry. -/
theorem c2_deny_counterexample :
    isValidResult ⟨"internal.example.com", "10.1.2.3"⟩ []
      ["internal.example.com"] [net10] = true := by decide

/-- C2 (amended): the deny list is a final exclusion filter for the domain
    path only — whenever the entry's name ends with a deny entry, the deny
    list is non-empty, and the entry is not admitted by the IP-prefix
    short-circuit, `isValidResult` returns false. -/
theorem c2_deny_final_filter_amended (e : DNSEntry) (allowed blacklist : List String)
    (ips : List IPNet) (hb : blacklist ≠ [])
    (hd : isAllowed blacklist e.Name = true)
    (hip : ∀ net ∈ ips, netContains net (ParseIP e.Value) = false) :
    isValidResult e allowed blacklist ips = false := by
  have hany := (anyContains_eq_false_iff ips (ParseIP e.Value)).mpr hip
  rw [isValidResult_no_ip_match e allowed blacklist ips hany]
  split_ifs with hc
  · rfl
  · exact isValidResult_deny_hit e allowed blacklist hb hd

/-- C2 (witness): the spec's own deny-overrides-allow example at a concrete
    input — allow example.com, deny internal.example.com, no prefixes. -/
theorem c2_deny_final_filter_witness :
    isValidResult ⟨"internal.example.com", ""⟩ ["example.com"]
      ["internal.example.com"] [] = false :=
  c2_deny_final_filter_amended ⟨"internal.example.com", ""⟩ ["example.com"]
    ["internal.example.com"] [] (by decide) (by decide) (by decide)

/-- C3: if the entry's value is an address contained in some configured
    prefix, `isValidResult` is true, whatever the allow and deny lists are
    (the IP match wins outright, bypassing the domain checks). -/
theorem c3_ip_short_circuit (e : DNSEntry) (allowed blacklist : List String)
    (ips : List IPNet)
    (h : ∃ net ∈ ips, netContains net (ParseIP e.Value) = true) :
    isValidResult e allowed blacklist ips = true := by
  obtain ⟨net, hmem, hc⟩ := h
  have hips : 0 < ips.length := by
    cases ips with
    | nil => simp at hmem
    | cons a l => simp
  have hany : anyContains ips (ParseIP e.Value) = true :=
    (anyContains_eq_true_iff ips (ParseIP e.Value)).mpr ⟨net, hmem, hc⟩
  simp [isValidResult, hany, hips]

/-- C3 (witness): prefixes 10.0.0.0/8, allow other.com, entry value
    10.1.2.3, name unrelated.net — included. -/
theorem c3_ip_short_circuit_witness :
    isValidResult ⟨"unrelated.net", "10.1.2.3"⟩ ["other.com"] [] [net10] = true :=
  c3_ip_short_circuit ⟨"unrelated.net", "10.1.2.3"⟩ ["other.com"] [] [net10]
    ⟨net10, by decide, by decide⟩

/-- C4: when the value falls inside no configured prefix of a non-empty
    prefix set, the predicate rejects outright if the allow list is empty,
    and otherwise decides exactly as the pure domain checks would. -/
theorem c4_ip_fallthrough (e : DNSEntry) (allowed blacklist : List String)
    (ips : List IPNet) (h0 : ips ≠ [])
    (h : ∀ net ∈ ips, netContains net (ParseIP e.Value) = false) :
    (allowed = [] → isValidResult e allowed blacklist ips = false) ∧
    (allowed ≠ [] →
      isValidResult e allowed blacklist ips = isValidResult e allowed blacklist []) := by
  have hany := (anyContains_eq_false_iff ips (ParseIP e.Value)).mpr h
  have key := isValidResult_no_ip_match e allowed blacklist ips hany
  constructor
  · intro ha
    subst ha
    rw [key]
    simp [List.length_pos.mpr h0]
  · intro ha
    rw [key]
    simp [List.length_eq_zero, ha]

/-- C4 (witness): value 8.8.8.8 outside 10.0.0.0/8, name sub.other.com
    matching the allow list — still included via the domain path. -/
theorem c4_ip_fallthrough_witness :
    isValidResult ⟨"sub.other.com", "8.8.8.8"⟩ ["other.com"] [] [net10] = true := by
  have h := c4_ip_fallthrough ⟨"sub.other.com", "8.8.8.8"⟩ ["other.com"] [] [net10]
    (by decide) (by decide)
  rw [h.2 (by decide)]
  decide

/-- C5: with an empty allow list and an empty prefix set the bulk scan
    returns the fatal configuration error for every record sequence and
    counter state — no record is evaluated and nothing is emitted. -/
theorem c5_empty_config_fatal (blacklist : List String) (entries : List DNSEntry)
    (c v : Nat) :
    parseFDNS [] blacklist [] entries c v =
      Except.error "No valid domains (0) and IPs (0) parsed." := rfl

/-- C6 (counterexample): on the spec's two-record input with one allow-list
    match, the final `count` is 3, not the claimed 2 — the global counter
    starts at 1 (main.go line 18) and is incremented once per record. -/
theorem c6_counter_counterexample :
    runFDNS ["example.com"] [] [] twoRecordInput =
      Except.ok (["a.example.com"], 3, 1) ∧ (3 : Nat) ≠ 2 :=
  ⟨rfl, by decide⟩

/-- C6 (amended): after the bulk scan, `count` equals 1 plus the number of
    records consumed (it is initialized to 1), and `valid` equals the number
    of records satisfying the predicate; on the two-record input the final
    values are count = 3, valid = 1. -/
theorem c6_counter_postcondition (allowed blacklist : List String) (ips : List IPNet)
    (entries : List DNSEntry) (h : ¬(allowed.length ≤ 0 ∧ ips.length ≤ 0)) :
    ∃ outs, runFDNS allowed blacklist ips entries =
      Except.ok (outs, 1 + entries.length,
        (entries.filter fun e => isValidResult e allowed blacklist ips).length) := by
  refine ⟨(entries.filter fun e => isValidResult e allowed blacklist ips).map DNSEntry.Name, ?_⟩
  unfold runFDNS parseFDNS
  rw [if_neg h, scanFDNS_eq]
  simp

/-- C6 (witness): the amended postcondition at the spec's two-record input:
    count = 3, valid = 1. -/
theorem c6_counter_postcondition_witness :
    ∃ outs, runFDNS ["example.com"] [] [] twoRecordInput = Except.ok (outs, 3, 1) := by
  obtain ⟨outs, ho⟩ :=
    c6_counter_postcondition ["example.com"] [] [] twoRecordInput (by decide)
  exact ⟨outs, by rw [ho]; rfl⟩

/-- C7 (code bug): loading the deny-list file overwrites the prefix set
    (main.go line 54 assigns `ips` from the -bdomains file).  With
    10.0.0.0/8 in the -domains file and 192.168.0.0/16 in the -bdomains
    file, the configuration keeps only 192.168.0.0/16; a record at
    192.168.1.1 with an unrelated name is then admitted by the deny file's
    CIDR, while a record at 10.1.2.3 is no longer admitted by the allow
    file's. -/
theorem c7_denyfile_overwrites_ips :
    mainConfig (some ["example.com", "10.0.0.0/8"]) (some ["bad.com", "192.168.0.0/16"]) =
      (["example.com"], ["bad.com"], [net192]) ∧
    isValidResult ⟨"unrelated.net", "192.168.1.1"⟩ ["example.com"] ["bad.com"]
      [net192] = true ∧
    isValidResult ⟨"unrelated.net", "10.1.2.3"⟩ ["example.com"] ["bad.com"]
      [net192] = false := by decide

/-- C8: within the bulk source the scan is order-preserving and
    deterministic — the emitted names are exactly the `Name` fields of the
    records satisfying `isValidResult`, in source order (and `runFDNS` is a
    function of its input, so two runs over the same input and filters emit
    the same sequence). -/
theorem c8_scan_order_deterministic (allowed blacklist : List String)
    (ips : List IPNet) (entries : List DNSEntry)
    (h : ¬(allowed.length ≤ 0 ∧ ips.length ≤ 0)) :
    ∃ c v, runFDNS allowed blacklist ips entries =
      Except.ok ((entries.filter fun e => isValidResult e allowed blacklist ips).map
        DNSEntry.Name, c, v) := by
  refine ⟨1 + entries.length,
    (entries.filter fun e => isValidResult e allowed blacklist ips).length, ?_⟩
  unfold runFDNS parseFDNS
  rw [if_neg h, scanFDNS_eq]
  simp

/-- C8 (witness): on the two-record input the emitted sequence is exactly
    ["a.example.com"]. -/
theorem c8_scan_order_deterministic_witness :
    ∃ c v, runFDNS ["example.com"] [] [] twoRecordInput =
      Except.ok (["a.example.com"], c, v) := by
  obtain ⟨c, v, ho⟩ :=
    c8_scan_order_deterministic ["example.com"] [] [] twoRecordInput (by decide)
  exact ⟨c, v, by rw [ho]; rfl⟩

/-- C9: when the entry's value does not parse as an IP address (Go's
    `ParseIP` returns nil, modelled as `[]`), no well-formed configured
    prefix contains it, and the predicate — total by construction — falls
    through to the empty-allow-list rejection or the domain checks. -/
theorem c9_unparseable_value (e : DNSEntry) (allowed blacklist : List String)
    (ips : List IPNet) (hv : ParseIP e.Value = [])
    (hwf : ∀ net ∈ ips, IPNetWF net) :
    (∀ net ∈ ips, netContains net (ParseIP e.Value) = false) ∧
    isValidResult e allowed blacklist ips =
      (if 0 < ips.length ∧ allowed.length = 0 then false
       else isValidResult e allowed blacklist []) := by
  have hall : ∀ net ∈ ips, netContains net (ParseIP e.Value) = false := by
    intro net hn
    rw [hv]
    exact netContains_nil_of_wf net (hwf net hn)
  exact ⟨hall, isValidResult_no_ip_match e allowed blacklist ips
    ((anyContains_eq_false_iff ips (ParseIP e.Value)).mpr hall)⟩

/-- C9 (witness): a certificate-transparency-style entry with empty value
    against the 10.0.0.0/8 prefix: no prefix contains it and the predicate
    reduces to the domain checks. -/
theorem c9_unparseable_value_witness :
    (∀ net ∈ [net10], netContains net (ParseIP "") = false) ∧
    isValidResult ⟨"host.example.com", ""⟩ ["example.com"] [] [net10] =
      (if 0 < ([net10] : List IPNet).length ∧ (["example.com"] : List String).length = 0
       then false
       else isValidResult ⟨"host.example.com", ""⟩ ["example.com"] [] []) :=
  c9_unparseable_value ⟨"host.example.com", ""⟩ ["example.com"] [] [net10]
    (by decide) (by decide)

/-- C10: a certificate-transparency result is matched purely by name — the
    driver queries one page per allow-list domain and invokes the predicate
    with only a `Name` and a literal empty prefix slice, so a harvested
    hostname is emitted exactly when some allow-list domain's page returned
    it, it suffix-matches the allow list, and it does not suffix-match the
    deny list; no IP prefix takes part. -/
theorem c10_ct_name_only (allowed blacklist : List String)
    (pages : String → List String) (name : String) :
    name ∈ queryCATransparency allowed blacklist pages ↔
      (∃ domain ∈ allowed, name ∈ pages domain) ∧
      isAllowed allowed name = true ∧ isAllowed blacklist name = false := by
  unfold queryCATransparency
  rw [List.mem_flatMap]
  constructor
  · rintro ⟨d, hd, hmem⟩
    rw [List.mem_filter] at hmem
    obtain ⟨hpg, hval⟩ := hmem
    have hane : allowed ≠ [] := by
      rintro rfl
      simp at hd
    exact ⟨⟨d, hd, hpg⟩, (isValidResult_ct allowed blacklist name hane).mp hval⟩
  · rintro ⟨⟨d, hd, hpg⟩, hok⟩
    have hane : allowed ≠ [] := by
      rintro rfl
      simp at hd
    exact ⟨d, hd, List.mem_filter.mpr
      ⟨hpg, (isValidResult_ct allowed blacklist name hane).mpr hok⟩⟩
